import Mathlib

/-!
Shallow embedding of the lu_packets codec primitives (src/common.rs) and the
capture_parser example (examples/capture_parser/main.rs): the opcode
classifier and the component resolver. Byte streams are modelled as
`List Nat` (each element one byte, values < 256 where the wire format
demands it); UTF-16 code-unit streams as `List Nat` of 16-bit units.
Readers consume from the front of the list and return the unread rest.
-/

namespace LuPackets

/-! ### SystemAddress (src/common.rs lines 12-37) -/

/-- `SystemAddress { ip: Ipv4Addr, port: u16 }`; the ip is its 4 octets. -/
structure SystemAddress where
  ip : List Nat
  port : Nat
deriving DecidableEq, Repr

/-- Serialize: write the 4 ip octets, then the port as little-endian u16. -/
def sysAddrSerialize (a : SystemAddress) : List Nat :=
  a.ip ++ [a.port % 256, a.port / 256]

/-- Deserialize: read 4 octets, then a little-endian u16 port. A source with
fewer than 6 bytes makes the underlying reads fail (`none`). -/
def sysAddrDeserialize (bytes : List Nat) : Option (SystemAddress × List Nat) :=
  match bytes with
  | i0 :: i1 :: i2 :: i3 :: p0 :: p1 :: rest =>
      some (⟨[i0, i1, i2, i3], p0 + 256 * p1⟩, rest)
  | _ => none

/-! ### ServiceId (src/common.rs lines 39-68) -/

/-- `enum ServiceId { General = 0, Auth = 1, World = 4, Client = 5 }`. -/
inductive ServiceId where
  | General
  | Auth
  | World
  | Client
deriving DecidableEq, Repr

/-- The discriminant assigned to each variant (`self as u16`). -/
def serviceIdVal : ServiceId → Nat
  | .General => 0
  | .Auth => 1
  | .World => 4
  | .Client => 5

/-- Decode failures, modelling `err(name, value)` (an InvalidData io::Error
carrying the field name and the offending value) and an end-of-stream error
from the underlying reader. -/
inductive DecodeError where
  | unknownValue (name : String) (value : Nat)
  | truncated
deriving DecidableEq, Repr

/-- Serialize: `writer.write(self as u16)`, little-endian. -/
def serviceIdSerialize (s : ServiceId) : List Nat :=
  [serviceIdVal s % 256, serviceIdVal s / 256]

/-- Deserialize: read a little-endian u16, map `0,1,4,5` to the variants,
anything else to `err("service id", x)`. -/
def serviceIdDeserialize (bytes : List Nat) :
    Except DecodeError (ServiceId × List Nat) :=
  match bytes with
  | b0 :: b1 :: rest =>
      let x := b0 + 256 * b1
      if x = serviceIdVal .General then .ok (.General, rest)
      else if x = serviceIdVal .Auth then .ok (.Auth, rest)
      else if x = serviceIdVal .World then .ok (.World, rest)
      else if x = serviceIdVal .Client then .ok (.Client, rest)
      else .error (.unknownValue "service id" x)
  | _ => .error .truncated

/-! ### Fixed-capacity strings (lu_str! / lu_wstr! macros, src/common.rs
lines 70-163). An ascii value of capacity `n` is its `n` raw bytes; a wide
value of capacity `n` is its `n` 16-bit code units. -/

/-- lu_str! Serialize: `writer.write_all(&self.0)` — the `n` raw bytes. -/
def luStrSerialize (v : List Nat) : List Nat := v

/-- lu_str! Deserialize: `reader.read(&mut [0u8; n])` fills from the source,
leaving the zero initialisation in place if the source is short, and the
raw bytes are transmuted into the value with no validation. -/
def luStrDeserialize (n : Nat) (bytes : List Nat) : List Nat × List Nat :=
  (bytes.take n ++ List.replicate (n - bytes.length) 0, bytes.drop n)

/-- One u16 as two little-endian bytes (the layout `transmute` produces). -/
def u16ToBytesLE (u : Nat) : List Nat := [u % 256, u / 256]

/-- Pair up little-endian bytes into 16-bit code units. -/
def bytesToU16LE : List Nat → List Nat
  | b0 :: b1 :: rest => (b0 + 256 * b1) :: bytesToU16LE rest
  | _ => []

/-- lu_wstr! Serialize: transmute `[u16; n]` to `[u8; 2n]` and write it. -/
def luWStrSerialize (v : List Nat) : List Nat := v.flatMap u16ToBytesLE

/-- lu_wstr! Deserialize: read `2n` raw bytes (zero-filled if short) and
transmute them into the `n` little-endian code units, with no validation. -/
def luWStrDeserialize (n : Nat) (bytes : List Nat) : List Nat × List Nat :=
  (bytesToU16LE (bytes.take (2 * n) ++ List.replicate (2 * n - bytes.length) 0),
   bytes.drop (2 * n))

/-! ### Helper lemmas for the codec -/

theorem length_luWStrSerialize (v : List Nat) :
    (luWStrSerialize v).length = 2 * v.length := by
  unfold luWStrSerialize
  induction v with
  | nil => rfl
  | cons u rest ih =>
      rw [List.flatMap_cons, List.length_append, ih]
      simp only [u16ToBytesLE, List.length_cons, List.length_nil]
      omega

theorem bytesToU16LE_roundtrip (v : List Nat) :
    bytesToU16LE (luWStrSerialize v) = v := by
  induction v with
  | nil => rfl
  | cons u rest ih =>
      calc bytesToU16LE (luWStrSerialize (u :: rest))
          = (u % 256 + 256 * (u / 256)) :: bytesToU16LE (luWStrSerialize rest) := rfl
        _ = u :: rest := by rw [Nat.mod_add_div, ih]

/-! ### From<&str>, get_str and Debug (src/common.rs lines 75-97, 119-139).
`string.bytes()` (resp. `string.encode_utf16()`) is modelled as the list of
byte values (resp. code-unit values) of the source string. -/

/-- lu_str! `From<&str>`: start from `[0u8; n]` and copy at most `n - 1`
bytes of the source into the front. -/
def luStrFromStr (n : Nat) (s : List Nat) : List Nat :=
  let t := s.take (n - 1)
  t ++ List.replicate (n - t.length) 0

/-- lu_wstr! `From<&str>`: start from `[0u16; n]` and copy at most `n - 1`
UTF-16 code units of the source into the front. -/
def luWStrFromStr (n : Nat) (s : List Nat) : List Nat :=
  let t := s.take (n - 1)
  t ++ List.replicate (n - t.length) 0

/-- `iter().position(p)`: index of the first element satisfying `p`. -/
def position (p : Nat → Bool) : List Nat → Option Nat
  | [] => none
  | y :: rest => if p y then some 0 else (position p rest).map (· + 1)

/-- Is `b` a UTF-8 continuation byte (0x80-0xBF)? -/
def isCont (b : Nat) : Bool := 128 ≤ b && b ≤ 191

/-- UTF-8 validity of a byte sequence, as checked by `std::str::from_utf8`
(shortest-form encodings only, surrogate range excluded). -/
def isValidUtf8 : List Nat → Bool
  | [] => true
  | b :: rest =>
    if b ≤ 127 then isValidUtf8 rest
    else if 194 ≤ b && b ≤ 223 then
      match rest with
      | c1 :: rest2 => isCont c1 && isValidUtf8 rest2
      | [] => false
    else if b = 224 then
      match rest with
      | c1 :: c2 :: rest2 => (160 ≤ c1 && c1 ≤ 191) && isCont c2 && isValidUtf8 rest2
      | _ => false
    else if (225 ≤ b && b ≤ 236) || b = 238 || b = 239 then
      match rest with
      | c1 :: c2 :: rest2 => isCont c1 && isCont c2 && isValidUtf8 rest2
      | _ => false
    else if b = 237 then
      match rest with
      | c1 :: c2 :: rest2 => (128 ≤ c1 && c1 ≤ 159) && isCont c2 && isValidUtf8 rest2
      | _ => false
    else if b = 240 then
      match rest with
      | c1 :: c2 :: c3 :: rest2 =>
          (144 ≤ c1 && c1 ≤ 191) && isCont c2 && isCont c3 && isValidUtf8 rest2
      | _ => false
    else if 241 ≤ b && b ≤ 243 then
      match rest with
      | c1 :: c2 :: c3 :: rest2 =>
          isCont c1 && isCont c2 && isCont c3 && isValidUtf8 rest2
      | _ => false
    else if b = 244 then
      match rest with
      | c1 :: c2 :: c3 :: rest2 =>
          (128 ≤ c1 && c1 ≤ 143) && isCont c2 && isCont c3 && isValidUtf8 rest2
      | _ => false
    else false

/-- UTF-16 validity of a code-unit sequence, as checked by
`String::from_utf16`: every high surrogate is followed by a low surrogate,
and no low surrogate stands alone. -/
def isValidUtf16 : List Nat → Bool
  | [] => true
  | u :: rest =>
    if u < 55296 || (57344 ≤ u && u ≤ 65535) then isValidUtf16 rest
    else if 55296 ≤ u && u ≤ 56319 then
      match rest with
      | u2 :: rest2 => (56320 ≤ u2 && u2 ≤ 57343) && isValidUtf16 rest2
      | [] => false
    else false

/-- lu_str! `get_str`: find the null terminator (`position(...).unwrap()`,
`none` models the panic when there is none), take the bytes before it and
run them through `str::from_utf8(...).unwrap()` (`none` on invalid UTF-8).
Debug formatting prints exactly this string. -/
def get_str (buf : List Nat) : Option (List Nat) :=
  match position (fun c => c == 0) buf with
  | none => none
  | some i => if isValidUtf8 (buf.take i) then some (buf.take i) else none

/-- lu_wstr! `From<&LuWStrN> for String` (used by Debug): find the null
terminator, take the code units before it, and run them through
`String::from_utf16(...).unwrap()` (`none` models either panic). -/
def wstrToString (buf : List Nat) : Option (List Nat) :=
  match position (fun c => c == 0) buf with
  | none => none
  | some i => if isValidUtf16 (buf.take i) then some (buf.take i) else none

/-! ### Opcode classifier (examples/capture_parser/main.rs lines 84-191).
The branch structure of the parse loop, as a pure function of the entry's
tag (`file.name()`). -/

/-- Is `sub` a prefix of `s`? (helper for substring containment) -/
def matchesAt : List Char → List Char → Bool
  | [], _ => true
  | _ :: _, [] => false
  | a :: sub, b :: s => a == b && matchesAt sub s

/-- `str::contains`: does `s` contain `sub` as a contiguous substring? -/
def containsSub (s sub : List Char) : Bool :=
  matchesAt sub s ||
    match s with
    | [] => false
    | _ :: rest => containsSub rest sub

/-- `tag.contains(sub)` on Lean strings. -/
def scontains (tag sub : String) : Bool := containsSub tag.toList sub.toList

/-- The exception sub-markers of the `[53-04-` (WorldServer) branch. -/
def ws5304Exceptions : List String :=
  ["[53-04-00-16]", "[e6-00]", "[6b-03]", "[16-04]", "[49-04]", "[ad-04]",
   "[1c-05]", "[230]", "[875]", "[1046]", "[1097]", "[1197]", "[1308]"]

/-- The exception sub-markers of the `[53-05-` part of the WorldClient
branch. -/
def wc5305Exceptions : List String :=
  ["[53-05-00-00]", "[53-05-00-15]", "[53-05-00-31]", "[76-00]", "[e6-00]",
   "[ff-00]", "[a1-01]", "[7f-02]", "[a3-02]", "[cc-02]", "[35-03]",
   "[36-03]", "[4d-03]", "[6d-03]", "[91-03]", "[1a-05]", "[e6-05]",
   "[16-06]", "[1c-06]", "[6f-06]", "[70-06]", "[118]", "[230]", "[255]",
   "[417]", "[639]", "[675]", "[716]", "[821]", "[822]", "[845]", "[877]",
   "[913]", "[1306]", "[1510]", "[1558]", "[1564]", "[1647]", "[1648]"]

/-- The parenthesized exception sub-codes of the `[24]` part of the
WorldClient branch. -/
def wc24Exceptions : List String :=
  ["(2365)", "(4930)", "(5635)", "(5958)", "(6007)", "(6010)", "(6209)",
   "(6267)", "(6289)", "(6319)", "(7282)", "(8304)"]

/-- The categories an entry can be classified into. Entries skipped by the
loop (continuation fragments and tags matching no rule) are `Ignored`. -/
inductive MessageCategory where
  | AuthServer
  | WorldServer
  | WorldClient
  | Ignored
deriving DecidableEq, Repr

/-- The classifier: the if/else-if chain of the parse loop over
`file.name()`, lines 86-185. -/
def classify (tag : String) : MessageCategory :=
  if scontains tag "of" then .Ignored
  else if scontains tag "[53-01-" then .AuthServer
  else if scontains tag "[53-04-"
      && ws5304Exceptions.all (fun e => !scontains tag e) then .WorldServer
  else if scontains tag "[53-02-"
      || (scontains tag "[53-05-"
          && wc5305Exceptions.all (fun e => !scontains tag e))
      || (scontains tag "[24]"
          && wc24Exceptions.all (fun e => !scontains tag e))
      || scontains tag "[27]" then .WorldClient
  else .Ignored

/-! ### Component resolver (examples/capture_parser/main.rs lines 23-59). -/

/-- `COMP_ORDER`, the fixed priority table (line 23). -/
def COMP_ORDER : List Nat :=
  [1, 3, 40, 98, 7, 23, 110, 109, 106, 4, 17, 5, 9, 60, 48, 16, 6, 2, 44, 107]

/-- `usize::MAX` on a 64-bit target, the sort key of types absent from
`COMP_ORDER`. -/
def usizeMAX : Nat := 2 ^ 64 - 1

/-- The implied-component expansion table (the `match value` arms,
lines 40-47). -/
def impliedComps : Nat → List Nat
  | 2 => [44]
  | 4 => [110, 109, 106]
  | 7 => [98]
  | 23 => [7]
  | 48 => [7]
  | _ => []

/-- The row loop (lines 36-48): push each raw row, then push the types it
implies; only raw rows are matched against the expansion table. -/
def collectComps : List Nat → List Nat
  | [] => []
  | v :: rest => v :: (impliedComps v ++ collectComps rest)

/-- `comps.sort()`: stable ascending sort. -/
def rustSort (l : List Nat) : List Nat := List.insertionSort (· ≤ ·) l

/-- `comps.dedup()`: remove consecutive repeated elements, keeping one
element of each run. -/
def rustDedup : List Nat → List Nat
  | [] => []
  | [a] => [a]
  | a :: b :: rest =>
      if a = b then rustDedup (b :: rest) else a :: rustDedup (b :: rest)

/-- The sort key of line 53:
`COMP_ORDER.iter().position(|y| y == x).unwrap_or(usize::MAX)`. -/
def compKey (x : Nat) : Nat :=
  (position (fun y => y == x) COMP_ORDER).getD usizeMAX

/-- `comps.sort_by_key(...)`: stable sort by `compKey`. -/
def sortByCompKey (l : List Nat) : List Nat :=
  List.insertionSort (fun a b => compKey a ≤ compKey b) l

/-- The cache-miss computation of `get_comps`: collect raw rows and their
implied types, `sort`, `dedup`, and reorder by `COMP_ORDER`. -/
def getCompsPure (rows : List Nat) : List Nat :=
  sortByCompKey (rustDedup (rustSort (collectComps rows)))

/-- `Cdclient`: the database connection (modelled as the pure function the
`componentsregistry` query computes: lot to its raw component rows) and the
`comp_cache` HashMap (modelled as an association list). -/
structure Cdclient where
  rowSource : Nat → List Nat
  comp_cache : List (Nat × List Nat)

/-- `get_comps` (lines 31-58), with the state passed explicitly. Returns
the resolved sequence, the updated state, and how many row-source queries
the call performed. -/
def get_comps (s : Cdclient) (lot : Nat) : List Nat × Cdclient × Nat :=
  match s.comp_cache.lookup lot with
  | some comps => (comps, s, 0)
  | none =>
      let comps := getCompsPure (s.rowSource lot)
      (comps, { s with comp_cache := (lot, comps) :: s.comp_cache }, 1)

/-! ### Claim theorems -/

/-- C1: for every valid value v of SystemAddress, ServiceId,
FixedAsciiString\<N\> and FixedWideString\<N\>, decoding the bytes produced
by encoding v yields v again, consuming the whole encoding. -/
theorem c1_codec_roundtrip :
    (∀ a : SystemAddress, a.ip.length = 4 → (∀ b ∈ a.ip, b < 256) →
      a.port < 65536 → sysAddrDeserialize (sysAddrSerialize a) = some (a, [])) ∧
    (∀ s : ServiceId, serviceIdDeserialize (serviceIdSerialize s) = .ok (s, [])) ∧
    (∀ (n : Nat) (v : List Nat), v.length = n → (∀ b ∈ v, b < 256) →
      luStrDeserialize n (luStrSerialize v) = (v, [])) ∧
    (∀ (n : Nat) (v : List Nat), v.length = n → (∀ u ∈ v, u < 65536) →
      luWStrDeserialize n (luWStrSerialize v) = (v, [])) := by
  refine ⟨?_, ?_, ?_, ?_⟩
  · rintro ⟨ip, port⟩ h1 _ _
    rcases ip with _ | ⟨x0, _ | ⟨x1, _ | ⟨x2, _ | ⟨x3, _ | ⟨x4, tl⟩⟩⟩⟩⟩ <;>
      simp_all [sysAddrSerialize, sysAddrDeserialize]
    exact Nat.mod_add_div port 256
  · intro s; cases s <;> rfl
  · intro n v h _
    subst h
    simp [luStrDeserialize, luStrSerialize]
  · intro n v h _
    subst h
    unfold luWStrDeserialize
    rw [show 2 * v.length = (luWStrSerialize v).length from
      (length_luWStrSerialize v).symm]
    simp [bytesToU16LE_roundtrip]

/-- Witness for C1 at concrete values of each of the four types. -/
theorem c1_codec_roundtrip_witness :
    sysAddrDeserialize (sysAddrSerialize ⟨[127, 0, 0, 1], 4000⟩)
      = some (⟨[127, 0, 0, 1], 4000⟩, []) ∧
    serviceIdDeserialize (serviceIdSerialize .World) = .ok (.World, []) ∧
    luStrDeserialize 2 (luStrSerialize [65, 66]) = ([65, 66], []) ∧
    luWStrDeserialize 2 (luWStrSerialize [300, 70]) = ([300, 70], []) :=
  ⟨c1_codec_roundtrip.1 ⟨[127, 0, 0, 1], 4000⟩ rfl (by decide) (by decide),
   c1_codec_roundtrip.2.1 .World,
   c1_codec_roundtrip.2.2.1 2 [65, 66] rfl (by decide),
   c1_codec_roundtrip.2.2.2 2 [300, 70] rfl (by decide)⟩

/-- C6: ServiceId decode reads a little-endian 16-bit integer; every value
outside {0, 1, 4, 5} produces the typed unknown-value error carrying the
field name "service id" and the offending integer; the four mapped values
produce the corresponding variants. -/
theorem c6_serviceid_decode :
    (∀ x : Nat, x < 65536 → ¬(x = 0 ∨ x = 1 ∨ x = 4 ∨ x = 5) →
      serviceIdDeserialize [x % 256, x / 256]
        = .error (.unknownValue "service id" x)) ∧
    serviceIdDeserialize [0, 0] = .ok (.General, []) ∧
    serviceIdDeserialize [1, 0] = .ok (.Auth, []) ∧
    serviceIdDeserialize [4, 0] = .ok (.World, []) ∧
    serviceIdDeserialize [5, 0] = .ok (.Client, []) := by
  refine ⟨?_, rfl, rfl, rfl, rfl⟩
  intro x _ h
  push_neg at h
  obtain ⟨h0, h1, h4, h5⟩ := h
  simp [serviceIdDeserialize, serviceIdVal, Nat.mod_add_div, h0, h1, h4, h5]

/-- Witness for C6 at the unmapped value 2. -/
theorem c6_serviceid_decode_witness :
    2 < 65536 ∧
    serviceIdDeserialize [2 % 256, 2 / 256]
      = .error (.unknownValue "service id" 2) :=
  ⟨by decide, c6_serviceid_decode.1 2 (by decide) (by decide)⟩

/-- C7: encoding a FixedAsciiString\<N\> always produces exactly N bytes and
encoding a FixedWideString\<N\> always produces exactly 2N bytes, whatever
the logical content of the buffer. -/
theorem c7_fixed_width :
    (∀ (n : Nat) (v : List Nat), v.length = n → (luStrSerialize v).length = n) ∧
    (∀ (n : Nat) (v : List Nat), v.length = n → (luWStrSerialize v).length = 2 * n) :=
  ⟨fun _ _ h => h, fun n v h => by rw [length_luWStrSerialize, h]⟩

/-- Witness for C7 at capacity 3 with logical length 1 (early terminator). -/
theorem c7_fixed_width_witness :
    (luStrSerialize [65, 0, 66]).length = 3 ∧
    (luWStrSerialize [65, 0, 66]).length = 2 * 3 :=
  ⟨c7_fixed_width.1 3 [65, 0, 66] rfl, c7_fixed_width.2 3 [65, 0, 66] rfl⟩

/-- C2: classify "[53-01-04]" is AuthServer, and any tag containing the
continuation marker "of" is Ignored — the "of" rule is checked first, so it
wins even over a tag that also contains "[53-01-". -/
theorem c2_classifier :
    classify "[53-01-04]" = .AuthServer ∧
    (∀ tag : String, scontains tag "of" = true → classify tag = .Ignored) := by
  refine ⟨by decide, fun tag h => ?_⟩
  simp [classify, h]

/-- Witness for C2 on a tag containing both "of" and "[53-01-". -/
theorem c2_classifier_witness :
    scontains "[53-01-04] 2 of 7" "of" = true ∧
    classify "[53-01-04] 2 of 7" = .Ignored :=
  ⟨by decide, c2_classifier.2 "[53-01-04] 2 of 7" (by decide)⟩

/-- C3: expansion of raw rows is single-pass and non-transitive: each raw
row contributes itself followed by exactly the types of the fixed table
2→{44}, 4→{110,109,106}, 7→{98}, 23→{7}, 48→{7}; an implied type is never
itself re-expanded, so the only raw row 23 resolves to {23, 7} and 98 never
appears. -/
theorem c3_expansion_single_pass :
    (∀ rows : List Nat,
      collectComps rows = rows.flatMap (fun v => v :: impliedComps v)) ∧
    impliedComps 2 = [44] ∧ impliedComps 4 = [110, 109, 106] ∧
    impliedComps 7 = [98] ∧ impliedComps 23 = [7] ∧ impliedComps 48 = [7] ∧
    getCompsPure [23] = [7, 23] ∧ ¬ (98 ∈ getCompsPure [23]) := by
  refine ⟨fun rows => ?_, rfl, rfl, rfl, rfl, rfl, by decide, by decide⟩
  induction rows with
  | nil => rfl
  | cons v rest ih => simp [collectComps, List.flatMap_cons, ih]

/-- C4: a raw discovered set {23, 60} (in either source order) resolves to
exactly [7, 23, 60]; 7, 23 and 60 sit at priority-table indices 4, 5, 13. -/
theorem c4_resolver_ordering_example :
    getCompsPure [23, 60] = [7, 23, 60] ∧ getCompsPure [60, 23] = [7, 23, 60] ∧
    compKey 7 = 4 ∧ compKey 23 = 5 ∧ compKey 60 = 13 := by
  decide

/-- C5: when an id is not yet cached, resolving it twice returns identical
sequences, the first call performs exactly one row-source query and the
second call is answered from the cache with zero queries. -/
theorem c5_resolver_memoization (s : Cdclient) (lot : Nat)
    (h : s.comp_cache.lookup lot = none) :
    (get_comps s lot).1 = (get_comps (get_comps s lot).2.1 lot).1 ∧
    (get_comps s lot).2.2 = 1 ∧
    (get_comps (get_comps s lot).2.1 lot).2.2 = 0 := by
  simp [get_comps, h, List.lookup]

/-- Witness for C5: a fresh resolver over a stub row source. -/
theorem c5_resolver_memoization_witness :
    (Cdclient.mk (fun _ => [23, 60]) []).comp_cache.lookup 5 = none ∧
    ((get_comps (Cdclient.mk (fun _ => [23, 60]) []) 5).1
        = (get_comps (get_comps (Cdclient.mk (fun _ => [23, 60]) []) 5).2.1 5).1 ∧
      (get_comps (Cdclient.mk (fun _ => [23, 60]) []) 5).2.2 = 1 ∧
      (get_comps (get_comps (Cdclient.mk (fun _ => [23, 60]) []) 5).2.1 5).2.2 = 0) :=
  ⟨rfl, c5_resolver_memoization (Cdclient.mk (fun _ => [23, 60]) []) 5 rfl⟩

/-! ### Lemmas about `position`, `compKey` and the stability of
`sort_by_key` -/

theorem position_eq_none_iff (p : Nat → Bool) :
    ∀ l : List Nat, position p l = none ↔ ∀ y ∈ l, p y = false := by
  intro l
  induction l with
  | nil => simp [position]
  | cons y rest ih =>
      by_cases hy : p y
      · simp [position, hy]
      · simp [position, hy, ih, Bool.not_eq_true]

theorem position_lt_length (p : Nat → Bool) :
    ∀ (l : List Nat) (i : Nat), position p l = some i → i < l.length := by
  intro l
  induction l with
  | nil => intro i h; simp [position] at h
  | cons y rest ih =>
      intro i h
      by_cases hy : p y
      · simp [position, hy] at h
        simp [← h]
      · simp [position, hy] at h
        obtain ⟨j, hj, rfl⟩ := h
        have := ih j hj
        simp only [List.length_cons]
        omega

theorem compKey_le_max (x : Nat) : compKey x ≤ usizeMAX := by
  have hmax : usizeMAX = 18446744073709551615 := rfl
  unfold compKey
  cases h : position (fun y => y == x) COMP_ORDER with
  | none => simp
  | some i =>
      have hi := position_lt_length _ _ _ h
      have hlen : COMP_ORDER.length = 20 := rfl
      simp only [Option.getD_some]
      omega

theorem compKey_eq_max_iff (x : Nat) :
    compKey x = usizeMAX ↔ COMP_ORDER.contains x = false := by
  have hmax : usizeMAX = 18446744073709551615 := rfl
  constructor
  · intro h
    cases hpos : position (fun y => y == x) COMP_ORDER with
    | some i =>
        exfalso
        have hi := position_lt_length _ _ _ hpos
        have hlen : COMP_ORDER.length = 20 := rfl
        rw [compKey, hpos, Option.getD_some] at h
        omega
    | none =>
        rw [position_eq_none_iff] at hpos
        simp only [List.contains_eq_any_beq, List.any_eq_false]
        intro y hy
        have hyx := hpos y hy
        simp at hyx ⊢
        omega
  · intro h
    have hpos : position (fun y => y == x) COMP_ORDER = none := by
      rw [position_eq_none_iff]
      intro y hy
      simp only [List.contains_eq_any_beq, List.any_eq_false] at h
      have hxy := h y hy
      simp at hxy ⊢
      omega
    rw [compKey, hpos, Option.getD_none]

/-- Inserting an element the filter rejects does not change the filtered
list. -/
theorem filter_orderedInsert_absent (p : Nat → Bool) (a : Nat)
    (hpa : p a = false) (l : List Nat) :
    (List.orderedInsert (fun u v => compKey u ≤ compKey v) a l).filter p
      = l.filter p := by
  induction l with
  | nil => simp [List.orderedInsert, hpa]
  | cons b rest ih =>
      by_cases hr : compKey a ≤ compKey b
      · simp [List.orderedInsert, hr, List.filter_cons, hpa]
      · simp only [List.orderedInsert, if_neg hr, List.filter_cons]
        cases hpb : p b <;> simp [hpb, ih]

/-- Inserting an element with the (maximal) key `usizeMAX` puts it before
every other element of maximal key, and the filter to maximal-key elements
sees it first. -/
theorem filter_orderedInsert_maxkey (p : Nat → Bool)
    (hp : ∀ x, p x = true ↔ compKey x = usizeMAX) (a : Nat)
    (hpa : p a = true) (l : List Nat) :
    (List.orderedInsert (fun u v => compKey u ≤ compKey v) a l).filter p
      = a :: l.filter p := by
  have hka : compKey a = usizeMAX := (hp a).mp hpa
  induction l with
  | nil => simp [List.orderedInsert, hpa]
  | cons b rest ih =>
      by_cases hr : compKey a ≤ compKey b
      · simp [List.orderedInsert, hr, List.filter_cons, hpa]
      · have hpb : p b = false := by
          cases hb : p b
          · rfl
          · exfalso
            have := (hp b).mp hb
            rw [hka, this] at hr
            exact hr le_rfl
        simp [List.orderedInsert, hr, List.filter_cons, hpb, ih]

/-- `sort_by_key` is stable on the elements of maximal key: their relative
order is the input order. -/
theorem filter_sortByCompKey (p : Nat → Bool)
    (hp : ∀ x, p x = true ↔ compKey x = usizeMAX) (l : List Nat) :
    (sortByCompKey l).filter p = l.filter p := by
  unfold sortByCompKey
  induction l with
  | nil => rfl
  | cons a rest ih =>
      rw [List.insertionSort]
      cases hpa : p a
      · rw [filter_orderedInsert_absent p a hpa, ih, List.filter_cons, hpa]
        simp
      · rw [filter_orderedInsert_maxkey p hp a hpa, ih, List.filter_cons, hpa]
        simp

instance : IsTotal Nat (fun a b => compKey a ≤ compKey b) :=
  ⟨fun a b => Nat.le_total (compKey a) (compKey b)⟩

instance : IsTrans Nat (fun a b => compKey a ≤ compKey b) :=
  ⟨fun _ _ _ h1 h2 => Nat.le_trans h1 h2⟩

/-- C8: every resolved sequence is ordered by the priority-table key (types
in the table by their index, types absent from the table — key usize::MAX —
after every present one); ties among absent types keep their relative order
from the deduplicated list; and the reorder step is a permutation of the
deduplicated list. -/
theorem c8_priority_order (rows : List Nat) :
    List.Pairwise (fun a b => compKey a ≤ compKey b) (getCompsPure rows) ∧
    List.Pairwise
      (fun a b => COMP_ORDER.contains a = false → COMP_ORDER.contains b = false)
      (getCompsPure rows) ∧
    (getCompsPure rows).filter (fun x => !(COMP_ORDER.contains x))
      = (rustDedup (rustSort (collectComps rows))).filter
          (fun x => !(COMP_ORDER.contains x)) ∧
    (getCompsPure rows).Perm (rustDedup (rustSort (collectComps rows))) := by
  have hsorted : List.Pairwise (fun a b => compKey a ≤ compKey b)
      (getCompsPure rows) := List.sorted_insertionSort _ _
  refine ⟨hsorted, ?_, ?_, List.perm_insertionSort _ _⟩
  · refine hsorted.imp ?_
    intro a b hab ha
    rw [← compKey_eq_max_iff] at ha ⊢
    have := compKey_le_max b
    omega
  · refine filter_sortByCompKey _ ?_ _
    intro x
    rw [Bool.not_eq_true', ← compKey_eq_max_iff]

/-! ### Lemmas about the zero padding of `From<&str>` buffers -/

theorem getLast_append_replicate (t : List Nat) (k : Nat) (hk : 1 ≤ k) :
    (t ++ List.replicate k 0).getLast? = some 0 := by
  obtain ⟨k', rfl⟩ : ∃ k', k = k' + 1 := ⟨k - 1, by omega⟩
  rw [List.replicate_succ', ← List.append_assoc, List.getLast?_concat]

theorem mem_zero_pad (t : List Nat) (k : Nat) (hk : 1 ≤ k) :
    0 ∈ t ++ List.replicate k 0 := by
  refine List.mem_append_right _ ?_
  rw [List.mem_replicate]
  exact ⟨by omega, rfl⟩

theorem position_zero_ne_none {ated : List Nat} (h0 : 0 ∈ ated) :
    position (fun c => c == 0) ated ≠ none := by
  intro h
  rw [position_eq_none_iff] at h
  simpa using h 0 h0

theorem position_append_zeros (s : List Nat) (h : ∀ y ∈ s, y ≠ 0)
    (k : Nat) (hk : 1 ≤ k) :
    position (fun c => c == 0) (s ++ List.replicate k 0) = some s.length := by
  induction s with
  | nil =>
      obtain ⟨k', rfl⟩ : ∃ k', k = k' + 1 := ⟨k - 1, by omega⟩
      simp [List.replicate_succ, position]
  | cons y rest ih =>
      have hy : ¬ ((y == 0) = true) := by
        simp [h y (List.mem_cons_self y rest)]
      simp only [List.cons_append, position, if_neg hy]
      rw [List.append_eq, ih (fun z hz => h z (List.mem_cons_of_mem y hz))]
      rfl

/-- C9 counterexample: decoding 33 nonzero bytes yields a FixedAsciiString
value containing no zero byte at all — decode performs no null-terminator
validation. -/
theorem c9_counterexample :
    (luStrDeserialize 33 (List.replicate 33 1)).1 = List.replicate 33 1 ∧
    ¬ (0 ∈ (luStrDeserialize 33 (List.replicate 33 1)).1) := by
  decide

/-- C9 (amended): values built via From<&str> are null-terminated within
the capacity, but decode copies the raw input verbatim with no
null-terminator validation, so a decoded value contains a zero only when
the input bytes do. -/
theorem c9_decode_no_validation :
    (∀ (n : Nat) (bytes : List Nat), bytes.length = n →
      luStrDeserialize n bytes = (bytes, [])) ∧
    (∀ (n : Nat) (bytes : List Nat), bytes.length = 2 * n →
      luWStrDeserialize n bytes = (bytesToU16LE bytes, [])) ∧
    (∀ (n : Nat) (s : List Nat), 1 ≤ n →
      (luStrFromStr n s).getLast? = some 0 ∧
      (luWStrFromStr n s).getLast? = some 0) := by
  refine ⟨?_, ?_, ?_⟩
  · intro n bytes h
    subst h
    simp [luStrDeserialize]
  · intro n bytes h
    unfold luWStrDeserialize
    rw [← h]
    simp
  · intro n s hn
    constructor
    · unfold luStrFromStr
      refine getLast_append_replicate _ _ ?_
      simp only [List.length_take]
      omega
    · unfold luWStrFromStr
      refine getLast_append_replicate _ _ ?_
      simp only [List.length_take]
      omega

/-- Witness for C9 (amended) at concrete inputs. -/
theorem c9_decode_no_validation_witness :
    luStrDeserialize 2 [7, 8] = ([7, 8], []) ∧
    luWStrDeserialize 1 [7, 8] = (bytesToU16LE [7, 8], []) ∧
    ((luStrFromStr 33 [104, 105]).getLast? = some 0 ∧
      (luWStrFromStr 33 [104, 105]).getLast? = some 0) :=
  ⟨c9_decode_no_validation.1 2 [7, 8] rfl,
   c9_decode_no_validation.2.1 1 [7, 8] rfl,
   c9_decode_no_validation.2.2 33 [104, 105] (by decide)⟩

/-- C10 counterexample: a valid UTF-8 source of 33 bytes (31 times 'a'
followed by the two-byte character U+00A2) is truncated by From<&str> to 32
bytes, splitting the final character; get_str then finds the terminator but
panics in `from_utf8` because the retained prefix is invalid UTF-8. -/
theorem c10_counterexample :
    isValidUtf8 (List.replicate 31 97 ++ [194, 162]) = true ∧
    get_str (luStrFromStr 33 (List.replicate 31 97 ++ [194, 162])) = none := by
  decide

/-- C10 (amended): From<&str> copies at most N-1 bytes (resp. code units)
into a zeroed buffer of capacity N, so the constructed buffer has exactly
the fixed width and always contains a null terminator, and the terminator
search in get_str / Debug always succeeds; get_str itself is only
guaranteed to succeed when no truncation splits a multi-unit character —
in particular, whenever the source fits within N-1 units, get_str (resp.
the Debug conversion) returns the source text unchanged. -/
theorem c10_fromstr_terminator :
    (∀ (n : Nat) (s : List Nat), 1 ≤ n →
      (luStrFromStr n s).length = n ∧
      position (fun c => c == 0) (luStrFromStr n s) ≠ none ∧
      (luWStrFromStr n s).length = n ∧
      position (fun c => c == 0) (luWStrFromStr n s) ≠ none) ∧
    (∀ (n : Nat) (s : List Nat), s.length < n → (∀ y ∈ s, y ≠ 0) →
      isValidUtf8 s = true → get_str (luStrFromStr n s) = some s) ∧
    (∀ (n : Nat) (s : List Nat), s.length < n → (∀ y ∈ s, y ≠ 0) →
      isValidUtf16 s = true → wstrToString (luWStrFromStr n s) = some s) := by
  refine ⟨?_, ?_, ?_⟩
  · intro n s hn
    refine ⟨?_, ?_, ?_, ?_⟩
    · unfold luStrFromStr
      simp only [List.length_append, List.length_replicate, List.length_take]
      omega
    · unfold luStrFromStr
      refine position_zero_ne_none (mem_zero_pad _ _ ?_)
      simp only [List.length_take]
      omega
    · unfold luWStrFromStr
      simp only [List.length_append, List.length_replicate, List.length_take]
      omega
    · unfold luWStrFromStr
      refine position_zero_ne_none (mem_zero_pad _ _ ?_)
      simp only [List.length_take]
      omega
  · intro n s hlt hnz hv
    have ht : s.take (n - 1) = s := List.take_of_length_le (by omega)
    unfold get_str luStrFromStr
    rw [ht, position_append_zeros s hnz _ (by omega)]
    simp [List.take_left, hv]
  · intro n s hlt hnz hv
    have ht : s.take (n - 1) = s := List.take_of_length_le (by omega)
    unfold wstrToString luWStrFromStr
    rw [ht, position_append_zeros s hnz _ (by omega)]
    simp [List.take_left, hv]

/-- Witness for C10 (amended) at capacity 33 and the two-byte source "hi". -/
theorem c10_fromstr_terminator_witness :
    ((luStrFromStr 33 [104, 105]).length = 33 ∧
      position (fun c => c == 0) (luStrFromStr 33 [104, 105]) ≠ none ∧
      (luWStrFromStr 33 [104, 105]).length = 33 ∧
      position (fun c => c == 0) (luWStrFromStr 33 [104, 105]) ≠ none) ∧
    get_str (luStrFromStr 33 [104, 105]) = some [104, 105] ∧
    wstrToString (luWStrFromStr 33 [104, 105]) = some [104, 105] :=
  ⟨c10_fromstr_terminator.1 33 [104, 105] (by decide),
   c10_fromstr_terminator.2.1 33 [104, 105] (by decide) (by decide) (by decide),
   c10_fromstr_terminator.2.2 33 [104, 105] (by decide) (by decide) (by decide)⟩

end LuPackets
